import Mathlib

/-!
Verification development for the restaurant booking chat backend
(`backend/main.py`, with one component taken from `backend/main_clean.py`).

The development shallowly embeds the intent-extraction, date/time
normalization, session-merge and booking-dispatch logic of the Python
source.  Strings are processed as `List Char`; Python string methods
(`strip`, `lower`, `split`, `in`) are re-implemented on lists with the
same semantics for the ASCII inputs the code handles.  Calendar dates are
a `(year, month, day)` structure with proleptic-Gregorian arithmetic,
matching Python's `datetime.date`/`timedelta` behaviour.
-/

namespace Booking

/-! ## Character and string helpers (Python `str` methods) -/

/-- Python whitespace set used by `str.strip()`. -/
def isPySpace (c : Char) : Bool :=
  c = ' ' || c = '\t' || c = '\n' || c = '\x0d' || c = '\x0b' || c = '\x0c'

/-- ASCII `str.lower()` on a single character. -/
def lowerChar (c : Char) : Char :=
  if 'A' ≤ c ∧ c ≤ 'Z' then Char.ofNat (c.toNat + 32) else c

/-- ASCII `str.lower()` on a character list. -/
def lowerL (s : List Char) : List Char := s.map lowerChar

/-- `str.strip()` : drop Python whitespace from both ends. -/
def stripL (s : List Char) : List Char :=
  ((s.dropWhile isPySpace).reverse.dropWhile isPySpace).reverse

/-- `needle in haystack` prefix test helper. -/
def startsWithL : List Char → List Char → Bool
  | _, [] => true
  | [], _ :: _ => false
  | h :: t, n :: ns => h = n && startsWithL t ns

/-- Python substring containment `needle in haystack`. -/
def containsSub : List Char → List Char → Bool
  | [], needle => needle.isEmpty
  | h :: t, needle => startsWithL (h :: t) needle || containsSub t needle

/-- Split a list on a separator character (Python `str.split(sep)`),
keeping empty pieces. -/
def splitOnC (sep : Char) : List Char → List (List Char)
  | [] => [[]]
  | c :: cs =>
    let rest := splitOnC sep cs
    if c = sep then [] :: rest
    else match rest with
      | [] => [[c]]
      | w :: ws => (c :: w) :: ws

/-- Split into whitespace-separated words, dropping empty pieces
(the effect of the regex `\s+` between tokens). -/
def splitWordsAux : List Char → List Char → List (List Char)
  | [], acc => if acc.isEmpty then [] else [acc.reverse]
  | c :: cs, acc =>
    if c = ' ' then
      if acc.isEmpty then splitWordsAux cs []
      else acc.reverse :: splitWordsAux cs []
    else splitWordsAux cs (c :: acc)

def splitWords (s : List Char) : List (List Char) := splitWordsAux s []

/-- Numeric value of a digit string (only used on all-digit strings). -/
def digitsVal (s : List Char) : Nat :=
  s.foldl (fun a c => a * 10 + (c.toNat - 48)) 0

/-- All characters are ASCII digits and the string is non-empty. -/
def allDigits (s : List Char) : Bool :=
  !s.isEmpty && s.all (fun c => '0' ≤ c && c ≤ '9')

/-! ## Calendar dates (`datetime.date`) -/

/-- A calendar date as Python's `datetime.date` carries it. -/
structure PyDate where
  year : Nat
  month : Nat
  day : Nat
deriving DecidableEq, Repr

/-- Gregorian leap-year rule. -/
def isLeap (y : Nat) : Bool :=
  y % 4 = 0 && (y % 100 ≠ 0 || y % 400 = 0)

/-- Days in a month of a given year. -/
def daysInMonth (y m : Nat) : Nat :=
  if m = 2 then (if isLeap y then 29 else 28)
  else if m = 4 ∨ m = 6 ∨ m = 9 ∨ m = 11 then 30
  else 31

/-- A structurally valid proleptic-Gregorian date. -/
def validDate (d : PyDate) : Prop :=
  1 ≤ d.year ∧ 1 ≤ d.month ∧ d.month ≤ 12 ∧ 1 ≤ d.day ∧ d.day ≤ daysInMonth d.year d.month

instance (d : PyDate) : Decidable (validDate d) := by
  unfold validDate; infer_instance

/-- Days in the months strictly before month `m` of year `y`. -/
def daysBeforeMonth (y m : Nat) : Nat :=
  let base :=
    match m with
    | 1 => 0 | 2 => 31 | 3 => 59 | 4 => 90 | 5 => 120 | 6 => 151
    | 7 => 181 | 8 => 212 | 9 => 243 | 10 => 273 | 11 => 304 | 12 => 334
    | _ => 0
  base + (if 2 < m ∧ isLeap y then 1 else 0)

/-- Python `date.toordinal()`: day number with `0001-01-01 = 1`. -/
def toOrdinal (d : PyDate) : Nat :=
  365 * (d.year - 1) + (d.year - 1) / 4 - (d.year - 1) / 100 + (d.year - 1) / 400
    + daysBeforeMonth d.year d.month + d.day

/-- Python `date.weekday()`: Monday is `0`.  `0001-01-01` (ordinal 1) is
a Monday in the proleptic Gregorian calendar. -/
def pyWeekday (d : PyDate) : Nat := (toOrdinal d + 6) % 7

/-- The next calendar day (`date + timedelta(days=1)`). -/
def nextDay (d : PyDate) : PyDate :=
  if d.day < daysInMonth d.year d.month then ⟨d.year, d.month, d.day + 1⟩
  else if d.month < 12 then ⟨d.year, d.month + 1, 1⟩
  else ⟨d.year + 1, 1, 1⟩

/-- `date + timedelta(days=k)`. -/
def addDays (d : PyDate) : Nat → PyDate
  | 0 => d
  | k + 1 => nextDay (addDays d k)

/-- Strict lexicographic order on dates, as Python compares `date`s. -/
def dateLt (a b : PyDate) : Bool :=
  a.year < b.year || (a.year = b.year && (a.month < b.month ||
    (a.month = b.month && a.day < b.day)))

/-! ## Date parsing (`IntentExtractor.normalize_date_text`) -/

/-- Shape of the CPython `strptime` `%Y` field: exactly four digits. -/
def yearShaped (s : List Char) : Bool := s.length = 4 && allDigits s

/-- Shape of the `strptime` `%m` field: one or two digits, value 1–12. -/
def monthShaped (s : List Char) : Bool :=
  allDigits s && s.length ≤ 2 && 1 ≤ digitsVal s && digitsVal s ≤ 12

/-- Shape of the `strptime` `%d` field: one or two digits, value 1–31. -/
def dayShaped (s : List Char) : Bool :=
  allDigits s && s.length ≤ 2 && 1 ≤ digitsVal s && digitsVal s ≤ 31

/-- `strptime(txt, "%Y<sep>%m<sep>%d")` followed by `datetime`'s own
calendar validation. -/
def parseYMD (sep : Char) (txt : List Char) : Option PyDate :=
  match splitOnC sep txt with
  | [y, m, d] =>
    if yearShaped y && monthShaped m && dayShaped d then
      let date : PyDate := ⟨digitsVal y, digitsVal m, digitsVal d⟩
      if 1 ≤ date.year ∧ date.day ≤ daysInMonth date.year date.month then some date
      else none
    else none
  | _ => none

/-- `strptime(txt, "%d<sep>%m<sep>%Y")` with calendar validation. -/
def parseDMY (sep : Char) (txt : List Char) : Option PyDate :=
  match splitOnC sep txt with
  | [d, m, y] =>
    if yearShaped y && monthShaped m && dayShaped d then
      let date : PyDate := ⟨digitsVal y, digitsVal m, digitsVal d⟩
      if 1 ≤ date.year ∧ date.day ≤ daysInMonth date.year date.month then some date
      else none
    else none
  | _ => none

/-- The four absolute formats tried in source order:
`%Y-%m-%d`, `%Y/%m/%d`, `%d-%m-%Y`, `%d/%m/%Y`. -/
def parseAbsolute (txt : List Char) : Option PyDate :=
  (parseYMD '-' txt).orElse fun _ =>
  (parseYMD '/' txt).orElse fun _ =>
  (parseDMY '-' txt).orElse fun _ =>
  parseDMY '/' txt

/-- `strptime` month-name field: `%B` (full name) or `%b` (abbreviation),
on already-lowercased text. -/
def monthIndex (w : List Char) : Option Nat :=
  if w = "january".toList then some 1 else if w = "february".toList then some 2
  else if w = "march".toList then some 3 else if w = "april".toList then some 4
  else if w = "may".toList then some 5 else if w = "june".toList then some 6
  else if w = "july".toList then some 7 else if w = "august".toList then some 8
  else if w = "september".toList then some 9 else if w = "october".toList then some 10
  else if w = "november".toList then some 11 else if w = "december".toList then some 12
  else if w = "jan".toList then some 1 else if w = "feb".toList then some 2
  else if w = "mar".toList then some 3 else if w = "apr".toList then some 4
  else if w = "jun".toList then some 6 else if w = "jul".toList then some 7
  else if w = "aug".toList then some 8 else if w = "sep".toList then some 9
  else if w = "oct".toList then some 10 else if w = "nov".toList then some 11
  else if w = "dec".toList then some 12
  else none

/-- `strptime(txt, "%B %d")` / `"%b %d"`: without a year, `strptime`
builds the date in its default year 1900, so the day is validated
against 1900's month lengths (February 29 is always rejected here). -/
def parseMonthDayNoYear (txt : List Char) : Option (Nat × Nat) :=
  match splitWords txt with
  | [monw, dayw] =>
    match monthIndex monw with
    | some m =>
      if dayShaped dayw && digitsVal dayw ≤ daysInMonth 1900 m then
        some (m, digitsVal dayw)
      else none
    | none => none
  | _ => none

/-- `strptime(txt, "%B %d %Y")` / `"%b %d %Y"` with calendar validation. -/
def parseMonthDayYear (txt : List Char) : Option PyDate :=
  match splitWords txt with
  | [monw, dayw, yearw] =>
    match monthIndex monw with
    | some m =>
      if dayShaped dayw && yearShaped yearw && 1 ≤ digitsVal yearw
          && digitsVal dayw ≤ daysInMonth (digitsVal yearw) m then
        some ⟨digitsVal yearw, m, digitsVal dayw⟩
      else none
    | none => none
  | _ => none

/-- Month-day without year: `d.replace(year=now.year)`, rolled to next
year when the result is already past (`if d < now.date()`). -/
def rollForward (now : PyDate) (m d : Nat) : PyDate :=
  let cand : PyDate := ⟨now.year, m, d⟩
  if dateLt cand now then ⟨now.year + 1, m, d⟩ else cand

/-- `IntentExtractor.normalize_date_text` from `backend/main.py`
(lines 428–462).  `now` stands for `datetime.now()`; the returned
`PyDate` stands for the `d.isoformat()` string (ISO formatting of a
date is injective). -/
def normalize_date_text (now : PyDate) (date_text : String) : Option PyDate :=
  if date_text.toList.isEmpty then none
  else
    let txt := lowerL (stripL date_text.toList)
    match parseAbsolute txt with
    | some d => some d
    | none =>
      if txt = "today".toList then some now
      else if txt = "tomorrow".toList then some (nextDay now)
      else
        match parseMonthDayNoYear txt with
        | some (m, d) => some (rollForward now m d)
        | none => parseMonthDayYear txt

/-! ## Weekday handling (`OllamaClient.normalize_date_text`,
`backend/main_clean.py` lines 277–325) -/

/-- Weekday keyword table of the source, Monday = 0. -/
def weekdayIndex (w : List Char) : Option Nat :=
  if w = "monday".toList then some 0 else if w = "tuesday".toList then some 1
  else if w = "wednesday".toList then some 2 else if w = "thursday".toList then some 3
  else if w = "friday".toList then some 4 else if w = "saturday".toList then some 5
  else if w = "sunday".toList then some 6
  else none

/-- The anchored regex `^(next\s+)?(monday|...|sunday)$` (with `\s+`
modelled as one or more spaces). -/
def parseWeekdayPhrase (txt : List Char) : Option (Bool × Nat) :=
  match splitWords txt with
  | [w] => (weekdayIndex w).map (fun t => (false, t))
  | [n, w] =>
    if n = "next".toList then (weekdayIndex w).map (fun t => (true, t))
    else none
  | _ => none

/-- The day offset computed by the weekday branch:
`delta = (target - now.weekday()) % 7` (written on `Nat` as
`(target + 7 - noww % 7) % 7`, identical for `noww < 7`), bumped to 7
when zero, plus one extra week when prefixed `next`. -/
def weekdayDelta (isNext : Bool) (target noww : Nat) : Nat :=
  (if (target + 7 - noww % 7) % 7 = 0 then 7 else (target + 7 - noww % 7) % 7)
    + (if isNext then 7 else 0)

/-- `OllamaClient.normalize_date_text` from `backend/main_clean.py`:
same absolute/relative/month formats (month only without year), plus
the weekday branch. -/
def normalize_date_text_clean (now : PyDate) (date_text : String) : Option PyDate :=
  if date_text.toList.isEmpty then none
  else
    let txt := lowerL (stripL date_text.toList)
    match parseAbsolute txt with
    | some d => some d
    | none =>
      if txt = "today".toList then some now
      else if txt = "tomorrow".toList then some (nextDay now)
      else
        match parseMonthDayNoYear txt with
        | some (m, d) => some (rollForward now m d)
        | none =>
          match parseWeekdayPhrase txt with
          | some (isNext, target) =>
            some (addDays now (weekdayDelta isNext target (pyWeekday now)))
          | none => none

/-! ## Time normalization (`BookingAPIClient._normalize_time_to_hhmmss`,
`backend/main.py` lines 238–279) -/

/-- Python `str.replace(ab, "")` for a two-character pattern: remove all
non-overlapping occurrences, scanning left to right. -/
def removeSub2 (a b : Char) : List Char → List Char
  | [] => []
  | [c] => [c]
  | c :: d :: rest =>
    if c = a ∧ d = b then removeSub2 a b rest
    else c :: removeSub2 a b (d :: rest)

/-- Python `int(s)` on the strings this normalizer can meet: surrounding
whitespace is stripped and a non-empty all-digit string is accepted
(signed or underscore-separated literals are not modelled; the time
regexes of the extractor only capture digits and colons). -/
def pyIntOpt (s : List Char) : Option Nat :=
  let t := stripL s
  if allDigits t then some (digitsVal t) else none

/-- `f"{n:02d}"` for a natural number. -/
def fmt02 (n : Nat) : List Char :=
  if n < 10 then '0' :: Nat.toDigits 10 n else Nat.toDigits 10 n

/-- The parsing part of `_normalize_time_to_hhmmss`: everything before
the fallback, `none` standing for the paths where a `ValueError` was
swallowed (wrong number of `:`-parts or a non-numeric field). -/
def normalizeTimeCore (time_lower : List Char) : Option (List Char) :=
  let base_time := stripL (removeSub2 'a' 'm' (removeSub2 'p' 'm' time_lower))
  if containsSub time_lower [':'] then
    match splitOnC ':' base_time with
    | [h, m] =>
      match pyIntOpt h, pyIntOpt m with
      | some hv, some mv =>
        if containsSub time_lower ['p', 'm'] then
          let hv' := if hv ≠ 12 then hv + 12 else hv
          some (fmt02 hv' ++ [':'] ++ fmt02 mv ++ ":00".toList)
        else if containsSub time_lower ['a', 'm'] then
          let hv' := if hv = 12 then 0 else hv
          some (fmt02 hv' ++ [':'] ++ fmt02 mv ++ ":00".toList)
        else
          some (fmt02 hv ++ [':'] ++ fmt02 mv ++ ":00".toList)
      | _, _ => none
    | _ => none
  else
    match pyIntOpt base_time with
    | some hv =>
      let hv' :=
        if containsSub time_lower ['p', 'm'] ∧ hv ≠ 12 then hv + 12
        else if containsSub time_lower ['a', 'm'] ∧ hv = 12 then 0
        else hv
      some (fmt02 hv' ++ ":00:00".toList)
    | none => none

/-- `BookingAPIClient._normalize_time_to_hhmmss`: on parse failure,
input containing exactly two `:` is returned unchanged, anything else
falls back to the fixed default `"19:00:00"`. -/
def normalize_time_to_hhmmss (time_str : String) : String :=
  match normalizeTimeCore (lowerL (stripL time_str.toList)) with
  | some r => String.mk r
  | none =>
    if (time_str.toList.filter (fun c => c = ':')).length = 2 then time_str
    else "19:00:00"

/-! ## Action classification (`IntentExtractor.extract_booking_intent`,
`backend/main.py` lines 469–499) -/

def cancelKeywords : List (List Char) :=
  ["cancel".toList, "cancelled".toList, "delete".toList, "remove".toList]

def modifyKeywords : List (List Char) :=
  ["change".toList, "modify".toList, "update".toList, "reschedule".toList, "move".toList]

def lookupKeywords : List (List Char) :=
  ["check my".toList, "my booking".toList, "my reservation".toList,
   "booking reference".toList, "find my".toList]

def bookKeywords : List (List Char) :=
  ["book".toList, "reserve".toList, "reservation".toList, "table".toList]

/-- `any(keyword in lower for keyword in kws)`. -/
def anyKeywordIn (kws : List (List Char)) (lower : List Char) : Bool :=
  kws.any (fun kw => containsSub lower kw)

/-- The priority-ordered `if`/`elif` action classification of
`extract_booking_intent`: the action the extracted intent carries
(`none` when no keyword group matches and no `action` key is set). -/
def classifyAction (message : String) : Option String :=
  let lower := lowerL message.toList
  if anyKeywordIn cancelKeywords lower then some "cancel_booking"
  else if anyKeywordIn modifyKeywords lower then some "update_booking"
  else if anyKeywordIn lookupKeywords lower then some "get_booking"
  else if containsSub lower "availability".toList || containsSub lower "available".toList then
    some "check_availability"
  else if anyKeywordIn bookKeywords lower then some "book"
  else none

/-! ## Booking-reference extraction guard
(`backend/main.py` lines 545–568) -/

def excludedRefWords : List String :=
  ["BOOKING", "REFERENCE", "TOMORROW", "TONIGHT", "CANCEL", "CHANGE",
   "UPDATE", "MODIFY", "CONFIRM", "CONFIRMATION", "CONFIRMING"]

def isUpperAlnum (c : Char) : Bool :=
  ('A' ≤ c && c ≤ 'Z') || ('0' ≤ c && c ≤ '9')

/-- The acceptance guard applied to every regex capture: not a common
word, exactly 7 characters, `fullmatch [A-Z0-9]{7}`, and at least one
digit. -/
def isValidBookingRef (ref : String) : Bool :=
  !(excludedRefWords.contains ref)
    && ref.toList.length = 7
    && ref.toList.all isUpperAlnum
    && ref.toList.any Char.isDigit

/-- The booking-reference pattern loop: `candidates` are the first
captures of the patterns in `booking_ref_patterns`, in source order
(each capture is a substring of `message.upper()` matched by
`[A-Z0-9]{7}`); the first candidate passing the guard is kept, a
failing candidate falls through to the next pattern. -/
def find_booking_reference (candidates : List String) : Option String :=
  candidates.find? isValidBookingRef

/-! ## Python dicts, the session merge and the intent builder -/

/-- Python values that flow through the intent/session dictionaries. -/
inductive PyVal where
  | vStr (s : String)
  | vInt (n : Int)
  | vNone
deriving DecidableEq, Repr

/-- Python truthiness (`if value:`) of these values. -/
def pyTruthy : PyVal → Bool
  | .vStr s => s ≠ ""
  | .vInt n => n ≠ 0
  | .vNone => false

/-- A Python dict as an association list (keys unique in every dict the
source builds). -/
def Dict := List (String × PyVal)

instance : DecidableEq Dict := by unfold Dict; infer_instance

/-- `d[k]` lookup. -/
def dictGet (d : Dict) (k : String) : Option PyVal :=
  match d with
  | [] => none
  | (k', v) :: rest => if k' = k then some v else dictGet rest k

/-- `d[k] = v` assignment: replace the first binding or append. -/
def dictSet (d : Dict) (k : String) (v : PyVal) : Dict :=
  match d with
  | [] => [(k, v)]
  | (k', v') :: rest =>
    if k' = k then (k, v) :: rest else (k', v') :: dictSet rest k v

/-- Unique keys, as Python dicts guarantee. -/
def NodupKeys (d : Dict) : Prop := (d.map Prod.fst).Nodup

instance (d : Dict) : Decidable (NodupKeys d) := by
  unfold NodupKeys; infer_instance

/-- The session merge of `_booking_processor_node`
(`backend/main.py` lines 858–862):
`for key, value in intent.items(): if value: session_booking[key] = value`. -/
def mergeIntent (session intent : Dict) : Dict :=
  intent.foldl (fun s kv => if pyTruthy kv.2 then dictSet s kv.1 kv.2 else s) session

/-- `intent[k] = v` only when the slot extractor produced a value. -/
def addField (d : Dict) (k : String) : Option PyVal → Dict
  | some v => dictSet d k v
  | none => d

/-- The dict-building skeleton of `IntentExtractor.extract_booking_intent`
(`backend/main.py` lines 465–625): each argument is the outcome of the
corresponding slot extraction (`none` when its regexes found nothing),
keys are inserted in source order, and the function returns
`intent if intent else None`. -/
def extract_booking_intent (action : Option String) (date time : Option String)
    (party : Option Int) (email : Option String) (ref : Option String)
    (restaurant : Option String) (name : Option String) : Option Dict :=
  let d : Dict := []
  let d := addField d "action" (action.map .vStr)
  let d := addField d "date" (date.map .vStr)
  let d := addField d "time" (time.map .vStr)
  let d := addField d "party_size" (party.map .vInt)
  let d := addField d "email" (email.map .vStr)
  let d := addField d "booking_reference" (ref.map .vStr)
  let d := addField d "restaurant" (restaurant.map .vStr)
  let d := addField d "name" (name.map .vStr)
  if d.isEmpty then none else some d

/-! ## The booking action dispatcher
(`BookingAgent._process_booking_action`, `backend/main.py` lines 927–1351)

The remote booking API and the restaurant database are collaborators;
they are modelled as an oracle environment `Env` whose functions return
what the corresponding `BookingAPIClient` method returns (`.error` for a
payload carrying an `'error'` key).  The dispatcher is embedded as a
pure function returning the user-facing response (one constructor per
distinct `return` site of the source) together with the trace of remote
booking-API calls it makes, in order. -/

/-- One availability slot of an `AvailabilitySearch` payload. -/
structure Slot where
  time : String
  available : Bool
deriving DecidableEq, Repr

/-- A booking record as returned by the remote `get_booking`. -/
structure BookingRecord where
  booking_reference : Option String := none
  status : Option String := none
  visit_date : Option String := none
  visit_time : Option String := none
  party_size : Option Nat := none
deriving DecidableEq, Repr

/-- The payload of a successful remote `create_booking`. -/
structure CreateResult where
  booking_reference : Option String := none
  status : Option String := none
deriving DecidableEq, Repr

/-- The `updates` dict assembled by the `update_booking` branch. -/
structure BookingUpdates where
  date : Option PyDate := none
  time : Option String := none
  party_size : Option Nat := none
deriving DecidableEq, Repr

/-- A remote booking-API invocation (the customer-info fields passed to
`create_booking` are carried through unexamined and are omitted). -/
inductive RemoteCall where
  | checkAvailability (date : PyDate) (party : Nat) (restaurant : String)
  | createBooking (date : PyDate) (time : String) (party : Nat) (restaurant : String)
  | getBooking (ref restaurant : String)
  | updateBooking (ref : String) (changes : BookingUpdates) (restaurant : String)
  | cancelBooking (ref : String) (reason : Nat) (restaurant : String)
deriving DecidableEq, Repr

/-- Is this call a remote cancel? -/
def RemoteCall.isCancel : RemoteCall → Bool
  | .cancelBooking _ _ _ => true
  | _ => false

/-- Is this call a remote booking creation? -/
def RemoteCall.isCreate : RemoteCall → Bool
  | .createBooking _ _ _ _ => true
  | _ => false

/-- The external world as the dispatcher sees it in one turn: the
current time, the restaurant-database resolver, and the remote API
(each returning the same answer whenever re-invoked within the turn). -/
structure Env where
  now : PyDate
  resolveRestaurant : String → Option String
  dbRestaurants : List String
  checkAvailability : PyDate → Nat → String → Except String (List Slot)
  createBooking : PyDate → String → Nat → String → Except String CreateResult
  getBooking : String → String → Except String BookingRecord
  updateBooking : String → BookingUpdates → String → Except String Unit
  cancelBooking : String → Nat → String → Except String Unit

/-- The extracted intent as the dispatcher reads it
(`intent.get(...)` of the per-turn dict). -/
structure Intent where
  action : Option String := none
  restaurant : Option String := none
  date : Option String := none
  time : Option String := none
  party_size : Option Nat := none
  name : Option String := none
  email : Option String := none
  phone : Option String := none
  special_requests : Option String := none
  booking_reference : Option String := none
deriving DecidableEq, Repr

/-- Python truthiness of `intent.get(k)` for a string slot. -/
def truthyS : Option String → Bool
  | some s => s ≠ ""
  | none => false

/-- Python truthiness of `intent.get(k)` for an integer slot. -/
def truthyN : Option Nat → Bool
  | some n => n ≠ 0
  | none => false

/-- `booking_client._restaurant_metadata.keys()`, in insertion order. -/
def restaurantIds : List String :=
  ["TheHungryUnicorn", "PizzaPalace", "SushiZen", "CafeBistro"]

/-- `booking_result.get('status', dflt).lower()`. -/
def statusLowerD (rec : BookingRecord) (dflt : String) : List Char :=
  lowerL (rec.status.getD dflt).toList

/-- One response constructor per distinct `return` site of
`_process_booking_action` (messages differing only in interpolated data
share a constructor carrying that data). -/
inductive Resp where
  | askAvailabilityInfo
  | apologyException
  | askAvailabilityDate
  | askValidDate
  | availabilityTimes (restaurant : String) (times : List String)
  | noAvailabilityRestaurant (restaurant : String)
  | availabilityCheckFailed (err : String)
  | availabilityOneRestaurant (restaurant : String) (times : List String)
  | availabilityManyRestaurants (restaurants : List String)
  | noAvailabilityAny
  | askValidDateForBooking
  | bookingAvailabilityError (err : String)
  | noSlotsForBooking
  | bookingConfirmed (ref restaurant : String)
  | bookingNoReference
  | bookingFailed (err : String)
  | askRefForLookup
  | lookupCancelled (restaurant : String) (rec : BookingRecord)
  | lookupActive (restaurant : String) (rec : BookingRecord)
  | lookupNotFound (ref : String)
  | askRefForUpdate
  | alreadyCancelledUpdate (ref restaurant : String)
  | invalidUpdateDate (dateText : String)
  | askWhatToChange
  | updated (ref restaurant : String) (changes : BookingUpdates)
  | updateFailed (ref : String)
  | askRefForCancel
  | alreadyCancelledCancel (ref restaurant : String)
  | cancelConfirmed (ref restaurant : String)
  | cancelFailed (ref : String)
  | genericBookingHelp
deriving DecidableEq, Repr

/-- The multi-restaurant lookup probe: try `get_booking` against every
known restaurant in order, stopping at the first success. -/
def probeGetBooking (env : Env) (ref : String) :
    List String → Option (String × BookingRecord) × List RemoteCall
  | [] => (none, [])
  | r :: rest =>
    match env.getBooking ref r with
    | .ok rec => (some (r, rec), [.getBooking ref r])
    | .error _ =>
      let (res, calls) := probeGetBooking env ref rest
      (res, .getBooking ref r :: calls)

/-- The cancel probe loop (reason 1: customer request), stopping at the
first restaurant whose remote cancel succeeds. -/
def probeCancel (env : Env) (ref : String) :
    List String → Option String × List RemoteCall
  | [] => (none, [])
  | r :: rest =>
    match env.cancelBooking ref 1 r with
    | .ok _ => (some r, [.cancelBooking ref 1 r])
    | .error _ =>
      let (res, calls) := probeCancel env ref rest
      (res, .cancelBooking ref 1 r :: calls)

/-- The update probe loop, stopping at the first restaurant whose
remote update succeeds. -/
def probeUpdate (env : Env) (ref : String) (changes : BookingUpdates) :
    List String → Option String × List RemoteCall
  | [] => (none, [])
  | r :: rest =>
    match env.updateBooking ref changes r with
    | .ok _ => (some r, [.updateBooking ref changes r])
    | .error _ =>
      let (res, calls) := probeUpdate env ref changes rest
      (res, .updateBooking ref changes r :: calls)

/-- `get_restaurants_with_availability`: query every database restaurant
and keep those with at least one slot marked available (the loop never
breaks, so every restaurant is called). -/
def availableRestaurantsLoop (env : Env) (nd : PyDate) (party : Nat) :
    List String → List (String × List Slot) × List RemoteCall
  | [] => ([], [])
  | r :: rest =>
    let (res, calls) := availableRestaurantsLoop env nd party rest
    match env.checkAvailability nd party r with
    | .ok slots =>
      let avail := slots.filter (fun s => s.available)
      if avail.isEmpty then (res, .checkAvailability nd party r :: calls)
      else ((r, avail) :: res, .checkAvailability nd party r :: calls)
    | .error _ => (res, .checkAvailability nd party r :: calls)

/-- The `check_availability` branch (lines 930–1008).  When the date is
present but the party size is missing, the source reads the undefined
name `state` (line 943), raising a `NameError` that the surrounding
`except` turns into the apology reply. -/
def processCheckAvailability (env : Env) (intent : Intent) : Resp × List RemoteCall :=
  if ¬ (truthyS intent.date) ∧ ¬ (truthyN intent.party_size) then (.askAvailabilityInfo, [])
  else if truthyS intent.date ∧ ¬ (truthyN intent.party_size) then (.apologyException, [])
  else if ¬ (truthyS intent.date) then (.askAvailabilityDate, [])
  else
    let party := intent.party_size.getD 0
    match normalize_date_text env.now (intent.date.getD "") with
    | none => (.askValidDate, [])
    | some nd =>
      if truthyS intent.restaurant then
        let r0 := intent.restaurant.getD ""
        let rname := (env.resolveRestaurant r0).getD r0
        match env.checkAvailability nd party rname with
        | .error e => (.availabilityCheckFailed e, [.checkAvailability nd party rname])
        | .ok slots =>
          let avail := slots.filter (fun s => s.available)
          if avail.isEmpty then
            (.noAvailabilityRestaurant rname, [.checkAvailability nd party rname])
          else
            (.availabilityTimes rname (avail.map (fun s => s.time)),
             [.checkAvailability nd party rname])
      else
        let (found, calls) := availableRestaurantsLoop env nd party env.dbRestaurants
        match found with
        | [] => (.noAvailabilityAny, calls)
        | [(r, avail)] => (.availabilityOneRestaurant r (avail.map (fun s => s.time)), calls)
        | many => (.availabilityManyRestaurants (many.map Prod.fst), calls)

/-- All six required `book` fields are truthy
(`['restaurant', 'date', 'time', 'party_size', 'name', 'email']`). -/
def bookFieldsComplete (intent : Intent) : Bool :=
  truthyS intent.restaurant && truthyS intent.date && truthyS intent.time
    && truthyN intent.party_size && truthyS intent.name && truthyS intent.email

/-- The `book` branch (lines 1010–1136).  With any required field
missing the source reads the undefined name `state` (line 1019) before
asking its progressive questions, so that path raises a `NameError` and
ends in the apology reply.  With all fields present: normalize the
date, re-check availability, refuse on an error or an empty slot list,
otherwise create the booking. -/
def processBook (env : Env) (intent : Intent) : Resp × List RemoteCall :=
  if ¬ bookFieldsComplete intent then (.apologyException, [])
  else
    match normalize_date_text env.now (intent.date.getD "") with
    | none => (.askValidDateForBooking, [])
    | some nd =>
      let r0 := intent.restaurant.getD ""
      let rname := (env.resolveRestaurant r0).getD r0
      let party := intent.party_size.getD 0
      let time := intent.time.getD ""
      match env.checkAvailability nd party rname with
      | .error e => (.bookingAvailabilityError e, [.checkAvailability nd party rname])
      | .ok slots =>
        if slots.isEmpty then (.noSlotsForBooking, [.checkAvailability nd party rname])
        else
          match env.createBooking nd time party rname with
          | .error e =>
            (.bookingFailed e,
             [.checkAvailability nd party rname, .createBooking nd time party rname])
          | .ok res =>
            if truthyS res.booking_reference then
              (.bookingConfirmed (res.booking_reference.getD "") rname,
               [.checkAvailability nd party rname, .createBooking nd time party rname])
            else
              (.bookingNoReference,
               [.checkAvailability nd party rname, .createBooking nd time party rname])

/-- The `get_booking` branch (lines 1138–1211). -/
def processGetBooking (env : Env) (intent : Intent) : Resp × List RemoteCall :=
  if ¬ truthyS intent.booking_reference then (.askRefForLookup, [])
  else
    let ref := intent.booking_reference.getD ""
    let (found, calls) := probeGetBooking env ref restaurantIds
    match found with
    | some (r, rec) =>
      if statusLowerD rec "confirmed" = "cancelled".toList then (.lookupCancelled r rec, calls)
      else (.lookupActive r rec, calls)
    | none => (.lookupNotFound ref, calls)

/-- Lines 1235–1294 of the `update_booking` branch, shared by the
found-and-active and not-found paths: assemble the updates dict
(skipping date fragments of length ≤ 3 or starting `"to "`, and
refusing on an unparseable change date), then probe the update against
every restaurant. -/
def processUpdateChanges (env : Env) (intent : Intent) (ref : String)
    (pcalls : List RemoteCall) : Resp × List RemoteCall :=
  let dt := stripL (intent.date.getD "").toList
  let wantsDate := truthyS intent.date ∧ 3 < dt.length ∧ ¬ startsWithL dt "to ".toList
  let dateUpd := if wantsDate then normalize_date_text env.now (String.mk dt) else none
  if wantsDate ∧ dateUpd = none then (.invalidUpdateDate (String.mk dt), pcalls)
  else
    let changes : BookingUpdates :=
      { date := dateUpd
        time := if truthyS intent.time then intent.time else none
        party_size := if truthyN intent.party_size then intent.party_size else none }
    if changes = {} then (.askWhatToChange, pcalls)
    else
      let (okr, ucalls) := probeUpdate env ref changes restaurantIds
      match okr with
      | some r => (.updated ref r changes, pcalls ++ ucalls)
      | none => (.updateFailed ref, pcalls ++ ucalls)

/-- The `update_booking` branch (lines 1213–1294): fetch the record
first and refuse if it is already cancelled; otherwise assemble and
dispatch the changes. -/
def processUpdate (env : Env) (intent : Intent) : Resp × List RemoteCall :=
  if ¬ truthyS intent.booking_reference then (.askRefForUpdate, [])
  else
    let ref := intent.booking_reference.getD ""
    let (found, pcalls) := probeGetBooking env ref restaurantIds
    match found with
    | some (r, rec) =>
      if statusLowerD rec "" = "cancelled".toList then (.alreadyCancelledUpdate ref r, pcalls)
      else processUpdateChanges env intent ref pcalls
    | none => processUpdateChanges env intent ref pcalls

/-- The `cancel_booking` branch (lines 1296–1346): fetch the record
first; if its status is already `cancelled`, answer "already cancelled"
without any remote cancel call; otherwise probe the remote cancel
against every restaurant. -/
def processCancel (env : Env) (intent : Intent) : Resp × List RemoteCall :=
  if ¬ truthyS intent.booking_reference then (.askRefForCancel, [])
  else
    let ref := intent.booking_reference.getD ""
    let (found, pcalls) := probeGetBooking env ref restaurantIds
    let doCancel : Resp × List RemoteCall :=
      let (okr, ccalls) := probeCancel env ref restaurantIds
      match okr with
      | some r => (.cancelConfirmed ref r, pcalls ++ ccalls)
      | none => (.cancelFailed ref, pcalls ++ ccalls)
    match found with
    | some (r, rec) =>
      if statusLowerD rec "" = "cancelled".toList then (.alreadyCancelledCancel ref r, pcalls)
      else doCancel
    | none => doCancel

/-- `BookingAgent._process_booking_action`: dispatch on the extracted
action. -/
def process_booking_action (env : Env) (intent : Intent) : Resp × List RemoteCall :=
  if intent.action = some "check_availability" then processCheckAvailability env intent
  else if intent.action = some "book" then processBook env intent
  else if intent.action = some "get_booking" then processGetBooking env intent
  else if intent.action = some "update_booking" then processUpdate env intent
  else if intent.action = some "cancel_booking" then processCancel env intent
  else (.genericBookingHelp, [])

/-! ## Conversation-history management (`chat_with_agent`,
`backend/main.py` lines 1529–1545) -/

/-- One entry of `conversation_history`. -/
structure HistMsg where
  role : String
  content : String
deriving DecidableEq, Repr

/-- The per-turn history update: append the user and assistant messages,
then, if the history exceeds 60 messages, keep the first 6 and the last
50. -/
def updateHistory (h : List HistMsg) (userMsg aiMsg : String) : List HistMsg :=
  let h2 := h ++ [⟨"user", userMsg⟩, ⟨"assistant", aiMsg⟩]
  if 60 < h2.length then h2.take 6 ++ h2.drop (h2.length - 50) else h2

/-- A whole conversation: fold the turn update from the empty history a
fresh session starts with. -/
def runConversation (turns : List (String × String)) : List HistMsg :=
  turns.foldl (fun h t => updateHistory h t.1 t.2) []

/-! ## Dictionary and merge lemmas -/

theorem dictGet_dictSet_self (d : Dict) (k : String) (v : PyVal) :
    dictGet (dictSet d k v) k = some v := by
  induction d with
  | nil => simp [dictSet, dictGet]
  | cons kv rest ih =>
    obtain ⟨k', v'⟩ := kv
    by_cases h : k' = k
    · subst h; simp [dictSet, dictGet]
    · simp [dictSet, dictGet, h, ih]

theorem dictGet_dictSet_ne (d : Dict) (k k1 : String) (v : PyVal) (h : k ≠ k1) :
    dictGet (dictSet d k v) k1 = dictGet d k1 := by
  induction d with
  | nil => simp [dictSet, dictGet, h]
  | cons kv rest ih =>
    obtain ⟨k', v'⟩ := kv
    by_cases hk : k' = k
    · subst hk; simp [dictSet, dictGet, h]
    · simp [dictSet, dictGet, hk, ih]

theorem mergeIntent_cons (s : Dict) (kv : String × PyVal) (rest : Dict) :
    mergeIntent s (kv :: rest) =
      mergeIntent (if pyTruthy kv.2 then dictSet s kv.1 kv.2 else s) rest := rfl

theorem dictGet_mergeIntent_not_mem (s intent : Dict) (k : String)
    (h : k ∉ intent.map Prod.fst) :
    dictGet (mergeIntent s intent) k = dictGet s k := by
  induction intent generalizing s with
  | nil => rfl
  | cons kv rest ih =>
    simp only [List.map_cons, List.mem_cons] at h
    push_neg at h
    rw [mergeIntent_cons, ih _ h.2]
    split
    · exact dictGet_dictSet_ne _ _ _ _ (Ne.symm h.1)
    · rfl

theorem dictGet_mergeIntent (s intent : Dict) (k : String) (h : NodupKeys intent) :
    dictGet (mergeIntent s intent) k =
      match dictGet intent k with
      | some v => if pyTruthy v then some v else dictGet s k
      | none => dictGet s k := by
  induction intent generalizing s with
  | nil => rfl
  | cons kv rest ih =>
    obtain ⟨k0, v0⟩ := kv
    have h' : k0 ∉ rest.map Prod.fst ∧ NodupKeys rest := by
      simpa [NodupKeys] using h
    rw [mergeIntent_cons]
    by_cases hk : k0 = k
    · subst hk
      rw [dictGet_mergeIntent_not_mem _ _ _ h'.1]
      simp only [dictGet, if_pos rfl]
      by_cases ht : pyTruthy v0 = true
      · simp [ht, dictGet_dictSet_self]
      · simp only [Bool.not_eq_true] at ht
        simp [ht]
    · rw [ih _ h'.2]
      have hs : dictGet (if pyTruthy v0 = true then dictSet s k0 v0 else s) k
          = dictGet s k := by
        split
        · exact dictGet_dictSet_ne _ _ _ _ hk
        · rfl
      simp only [dictGet, if_neg hk, hs]

/-- C1: merging an extracted intent into the session slot map is a
right-biased union: every slot carried by the intent with a truthy
(non-empty) value overwrites the session's value for that slot, and a
slot that is absent from the intent, or present with an empty/falsy
value, leaves the session's existing value unchanged. -/
theorem session_merge_right_biased (session intent : Dict) (k : String)
    (hnd : NodupKeys intent) :
    (∀ v, dictGet intent k = some v → pyTruthy v = true →
        dictGet (mergeIntent session intent) k = some v) ∧
    ((∀ v, dictGet intent k = some v → pyTruthy v = false) →
        dictGet (mergeIntent session intent) k = dictGet session k) := by
  rw [dictGet_mergeIntent session intent k hnd]
  constructor
  · intro v hv ht
    rw [hv]
    simp [ht]
  · intro hfalse
    cases hcase : dictGet intent k with
    | none => simp
    | some v => simp [hfalse v hcase]

/-- Witness for C1 at a concrete session and intent: the truthy `date`
overwrites, the empty-string `name` does not. -/
theorem session_merge_right_biased_witness :
    dictGet (mergeIntent [("date", .vStr "2025-08-15"), ("name", .vStr "Ann")]
      [("date", .vStr "2025-08-16"), ("name", .vStr "")]) "date"
      = some (.vStr "2025-08-16") ∧
    dictGet (mergeIntent [("date", .vStr "2025-08-15"), ("name", .vStr "Ann")]
      [("date", .vStr "2025-08-16"), ("name", .vStr "")]) "name"
      = some (.vStr "Ann") := by
  constructor
  · exact (session_merge_right_biased _ _ "date" (by decide)).1 _ (by decide) (by decide)
  · have h := (session_merge_right_biased
      [("date", PyVal.vStr "2025-08-15"), ("name", PyVal.vStr "Ann")]
      [("date", PyVal.vStr "2025-08-16"), ("name", PyVal.vStr "")] "name" (by decide)).2
    rw [h]
    · decide
    · intro v hv
      have : v = PyVal.vStr "" := by
        have hh : dictGet [("date", PyVal.vStr "2025-08-16"), ("name", PyVal.vStr "")]
            "name" = some (PyVal.vStr "") := by decide
        rw [hh] at hv
        exact (Option.some.inj hv).symm
      rw [this]
      decide

/-! ## C4: booking-reference guard -/

/-- C4: whatever reference the extractor's pattern loop produces passes
the guard: exactly 7 characters, all uppercase alphanumeric, at least
one digit, and not one of the excluded common English words (in
particular never `TOMORROW`); every candidate violating a condition is
skipped, so a produced reference always satisfies all of them. -/
theorem booking_reference_guard (candidates : List String) (r : String)
    (h : find_booking_reference candidates = some r) :
    r.toList.length = 7 ∧ (∀ c ∈ r.toList, isUpperAlnum c = true) ∧
    (∃ c ∈ r.toList, c.isDigit = true) ∧ r ∉ excludedRefWords ∧ r ≠ "TOMORROW" := by
  have hr : isValidBookingRef r = true := List.find?_some h
  simp only [isValidBookingRef, Bool.and_eq_true, Bool.not_eq_true',
    List.all_eq_true, List.any_eq_true, decide_eq_true_eq] at hr
  obtain ⟨⟨⟨hex, hlen⟩, hall⟩, hany⟩ := hr
  have hmem : r ∉ excludedRefWords := by simpa using hex
  refine ⟨hlen, hall, hany, hmem, ?_⟩
  intro hT
  exact hmem (by rw [hT]; decide)

/-- Witness for C4: the guard skips the excluded word `BOOKING` and the
digitless `ABCDEFG`, keeping `ABC1234`, which satisfies every clause. -/
theorem booking_reference_guard_witness :
    "ABC1234".toList.length = 7 ∧ (∀ c ∈ "ABC1234".toList, isUpperAlnum c = true) ∧
    (∃ c ∈ "ABC1234".toList, c.isDigit = true) ∧ "ABC1234" ∉ excludedRefWords ∧
    "ABC1234" ≠ "TOMORROW" :=
  booking_reference_guard ["BOOKING", "ABCDEFG", "ABC1234"] "ABC1234" (by decide)

/-! ## C5: priority-ordered action classification -/

/-- C5: action classification is first-match-wins in the fixed priority
order cancellation > modification > lookup > availability > generic
booking > none; in particular any utterance containing a cancellation
keyword is classified `cancel_booking` no matter which other keywords
(modification, booking, ...) it also contains. -/
theorem action_priority_order (message : String) :
    (anyKeywordIn cancelKeywords (lowerL message.toList) = true →
      classifyAction message = some "cancel_booking") ∧
    (anyKeywordIn cancelKeywords (lowerL message.toList) = false →
      anyKeywordIn modifyKeywords (lowerL message.toList) = true →
      classifyAction message = some "update_booking") ∧
    (anyKeywordIn cancelKeywords (lowerL message.toList) = false →
      anyKeywordIn modifyKeywords (lowerL message.toList) = false →
      anyKeywordIn lookupKeywords (lowerL message.toList) = true →
      classifyAction message = some "get_booking") ∧
    (anyKeywordIn cancelKeywords (lowerL message.toList) = false →
      anyKeywordIn modifyKeywords (lowerL message.toList) = false →
      anyKeywordIn lookupKeywords (lowerL message.toList) = false →
      (containsSub (lowerL message.toList) "availability".toList
        || containsSub (lowerL message.toList) "available".toList) = true →
      classifyAction message = some "check_availability") ∧
    (anyKeywordIn cancelKeywords (lowerL message.toList) = false →
      anyKeywordIn modifyKeywords (lowerL message.toList) = false →
      anyKeywordIn lookupKeywords (lowerL message.toList) = false →
      (containsSub (lowerL message.toList) "availability".toList
        || containsSub (lowerL message.toList) "available".toList) = false →
      anyKeywordIn bookKeywords (lowerL message.toList) = true →
      classifyAction message = some "book") ∧
    (anyKeywordIn cancelKeywords (lowerL message.toList) = false →
      anyKeywordIn modifyKeywords (lowerL message.toList) = false →
      anyKeywordIn lookupKeywords (lowerL message.toList) = false →
      (containsSub (lowerL message.toList) "availability".toList
        || containsSub (lowerL message.toList) "available".toList) = false →
      anyKeywordIn bookKeywords (lowerL message.toList) = false →
      classifyAction message = none) := by
  refine ⟨?_, ?_, ?_, ?_, ?_, ?_⟩ <;>
    · intros
      simp only [classifyAction]
      simp_all

/-- Witness for C5: an utterance containing a cancellation keyword
(`cancel`), a modification keyword (`change`) and a booking keyword
(`table`) is classified as a cancellation. -/
theorem action_priority_order_witness :
    classifyAction "Cancel and change my table please" = some "cancel_booking" :=
  (action_priority_order "Cancel and change my table please").1 (by decide)

/-! ## Character-class lemmas -/

theorem containsSub_head_mem (l : List Char) (c : Char) (cs : List Char)
    (h : containsSub l (c :: cs) = true) : c ∈ l := by
  induction l with
  | nil => simp [containsSub, List.isEmpty] at h
  | cons x t ih =>
    simp only [containsSub, Bool.or_eq_true] at h
    rcases h with h | h
    · simp only [startsWithL, Bool.and_eq_true, decide_eq_true_eq] at h
      exact h.1 ▸ List.mem_cons_self _ _
    · exact List.mem_cons_of_mem _ (ih h)

theorem containsSub_eq_false (l : List Char) (c : Char) (cs : List Char)
    (h : c ∉ l) : containsSub l (c :: cs) = false := by
  cases hc : containsSub l (c :: cs) with
  | false => rfl
  | true => exact absurd (containsSub_head_mem l c cs hc) h

theorem removeSub2_of_not_mem (a b : Char) (l : List Char) (h : a ∉ l) :
    removeSub2 a b l = l := by
  induction l with
  | nil => rfl
  | cons c cs ih =>
    cases cs with
    | nil => rfl
    | cons d rest =>
      have hca : ¬(c = a ∧ d = b) := fun hh => h (hh.1 ▸ List.mem_cons_self _ _)
      rw [removeSub2, if_neg hca, ih (fun hm => h (List.mem_cons_of_mem _ hm))]

theorem dropWhile_eq_self_of (p : Char → Bool) (l : List Char)
    (h : ∀ c ∈ l, p c = false) : l.dropWhile p = l := by
  cases l with
  | nil => rfl
  | cons c t => simp [List.dropWhile_cons, h c (List.mem_cons_self _ _)]

theorem stripL_eq_self (l : List Char) (h : ∀ c ∈ l, isPySpace c = false) :
    stripL l = l := by
  unfold stripL
  rw [dropWhile_eq_self_of _ _ h,
      dropWhile_eq_self_of _ _ (fun c hc => h c (List.mem_reverse.mp hc)),
      List.reverse_reverse]

theorem lowerL_eq_self (l : List Char) (h : ∀ c ∈ l, lowerChar c = c) :
    lowerL l = l := by
  induction l with
  | nil => rfl
  | cons c t ih =>
    simp only [lowerL, List.map_cons] at *
    rw [h c (List.mem_cons_self _ _), ih (fun x hx => h x (List.mem_cons_of_mem _ hx))]

theorem allDigits_mem (l : List Char) (h : allDigits l = true) :
    ∀ c ∈ l, '0' ≤ c ∧ c ≤ '9' := by
  simp only [allDigits, Bool.and_eq_true, List.all_eq_true, Bool.and_eq_true,
    decide_eq_true_eq] at h
  exact h.2

/-- An ASCII digit is not whitespace, not lower-cased, and distinct from
the letters and separators the normalizers branch on. -/
theorem digitNotSpecial (c : Char) (h0 : '0' ≤ c) (h9 : c ≤ '9') :
    isPySpace c = false ∧ lowerChar c = c ∧ c ≠ ':' ∧ c ≠ 'p' ∧ c ≠ 'a'
      ∧ c ≠ ' ' ∧ c ≠ '-' ∧ c ≠ '/' := by
  have hlow : ∀ d : Char, d < '0' → c ≠ d := fun d hd he => by
    subst he; exact absurd (lt_of_lt_of_le hd h0) (lt_irrefl _)
  have hhigh : ∀ d : Char, '9' < d → c ≠ d := fun d hd he => by
    subst he; exact absurd (lt_of_le_of_lt h9 hd) (lt_irrefl _)
  have hsp : c ≠ ' ' := hlow ' ' (by decide)
  refine ⟨?_, ?_, hhigh ':' (by decide), hhigh 'p' (by decide), hhigh 'a' (by decide),
    hsp, hlow '-' (by decide), hlow '/' (by decide)⟩
  · simp [isPySpace, hsp, hlow '\t' (by decide), hlow '\n' (by decide),
      hlow '\x0d' (by decide), hlow '\x0b' (by decide), hlow '\x0c' (by decide)]
  · unfold lowerChar
    rw [if_neg]
    rintro ⟨hA, _⟩
    exact absurd (le_trans hA h9) (by decide)

theorem pyIntOpt_digits (l : List Char) (h : allDigits l = true) :
    pyIntOpt l = some (digitsVal l) := by
  unfold pyIntOpt
  rw [stripL_eq_self l (fun c hc =>
    (digitNotSpecial c ((allDigits_mem l h c hc).1) ((allDigits_mem l h c hc).2)).1)]
  simp [h]

/-! ## C8: time normalization -/

/-- C8 (amended): the 12-hour forms `7pm` and `7:30pm` and every
bare-hour digit string normalize to `HH:MM:SS` with minutes defaulted
to `00`; but on a parse failure the source returns the input unchanged
when it contains exactly two `:` characters, and only otherwise falls
back to the fixed default `"19:00:00"`. -/
theorem time_normalization (ds : List Char) (hds : allDigits ds = true) :
    normalize_time_to_hhmmss "7pm" = "19:00:00" ∧
    normalize_time_to_hhmmss "7:30pm" = "19:30:00" ∧
    normalize_time_to_hhmmss (String.mk ds)
      = String.mk (fmt02 (digitsVal ds) ++ ":00:00".toList) ∧
    (∀ s : String, normalizeTimeCore (lowerL (stripL s.toList)) = none →
      normalize_time_to_hhmmss s =
        if (s.toList.filter (fun c => c = ':')).length = 2 then s else "19:00:00") := by
  have hdig := allDigits_mem ds hds
  have hprops := fun c hc => digitNotSpecial c (hdig c hc).1 (hdig c hc).2
  refine ⟨by decide, by decide, ?_, ?_⟩
  · have htl : (String.mk ds).toList = ds := rfl
    have hstrip : stripL ds = ds := stripL_eq_self ds (fun c hc => (hprops c hc).1)
    have hlower : lowerL ds = ds := lowerL_eq_self ds (fun c hc => (hprops c hc).2.1)
    have hnp : 'p' ∉ ds := fun hm => (hprops _ hm).2.2.2.1 rfl
    have hna : 'a' ∉ ds := fun hm => (hprops _ hm).2.2.2.2.1 rfl
    have hncolon : containsSub ds [':'] = false :=
      containsSub_eq_false ds ':' [] (fun hm => (hprops _ hm).2.2.1 rfl)
    have hnpm : containsSub ds ['p', 'm'] = false := containsSub_eq_false ds 'p' ['m'] hnp
    have hnam : containsSub ds ['a', 'm'] = false := containsSub_eq_false ds 'a' ['m'] hna
    unfold normalize_time_to_hhmmss
    rw [htl, hstrip, hlower]
    unfold normalizeTimeCore
    rw [removeSub2_of_not_mem 'p' 'm' ds hnp, removeSub2_of_not_mem 'a' 'm' ds hna,
      hstrip, hncolon]
    simp [hnpm, hnam, pyIntOpt_digits ds hds]
  · intro s hcore
    unfold normalize_time_to_hhmmss
    rw [hcore]

/-- Witness for C8's amended theorem: the bare hour `"19"` and the
unparseable colon-free `"banana"`. -/
theorem time_normalization_witness :
    allDigits "19".toList = true ∧
    normalize_time_to_hhmmss (String.mk "19".toList)
      = String.mk (fmt02 (digitsVal "19".toList) ++ ":00:00".toList) ∧
    normalize_time_to_hhmmss "banana" = "19:00:00" := by
  have h := time_normalization "19".toList (by decide)
  refine ⟨by decide, h.2.2.1, ?_⟩
  have h4 := h.2.2.2 "banana" (by decide)
  rw [if_neg (by decide)] at h4
  exact h4

/-- C8 counterexample: `"a:b:c"` fails every parse path of the
normalizer, yet it is returned unchanged — not the fixed default
`"19:00:00"` the claim promises for every parse failure. -/
theorem time_default_counterexample :
    normalizeTimeCore (lowerL (stripL "a:b:c".toList)) = none ∧
    normalize_time_to_hhmmss "a:b:c" = "a:b:c" ∧
    "a:b:c" ≠ ("19:00:00" : String) := by
  refine ⟨by decide, by decide, by decide⟩

/-! ## C9: conversation-history bound -/

/-- C9: starting from the empty history of a fresh session, the stored
conversation history never exceeds 60 messages after a completed turn;
whenever appending the turn's two messages would exceed 60, the history
is pruned to exactly the first 6 plus the last 50 messages, so the
pruned length is always 56. -/
theorem conversation_history_bound :
    (∀ turns : List (String × String), (runConversation turns).length ≤ 60) ∧
    (∀ (h : List HistMsg) (u a : String), 60 < h.length + 2 →
      (updateHistory h u a).length = 56 ∧
      updateHistory h u a =
        (h ++ [HistMsg.mk "user" u, HistMsg.mk "assistant" a]).take 6 ++
          (h ++ [HistMsg.mk "user" u, HistMsg.mk "assistant" a]).drop
            (h.length + 2 - 50)) := by
  have hlen2 : ∀ (h : List HistMsg) (u a : String),
      (h ++ [HistMsg.mk "user" u, HistMsg.mk "assistant" a]).length = h.length + 2 := by
    intro h u a; simp
  have step : ∀ (h : List HistMsg) (u a : String),
      h.length ≤ 60 → (updateHistory h u a).length ≤ 60 := by
    intro h u a hh
    simp only [updateHistory]
    split
    · rename_i hgt
      rw [hlen2] at hgt
      simp only [List.length_append, List.length_take, List.length_drop, hlen2]
      omega
    · rename_i hle
      rw [hlen2] at hle
      rw [hlen2]
      omega
  constructor
  · have main : ∀ (ts : List (String × String)) (acc : List HistMsg),
        acc.length ≤ 60 →
        (ts.foldl (fun h t => updateHistory h t.1 t.2) acc).length ≤ 60 := by
      intro ts
      induction ts with
      | nil => exact fun acc hacc => hacc
      | cons t rest ih => exact fun acc hacc => ih _ (step _ _ _ hacc)
    exact fun ts => main ts [] (by simp)
  · intro h u a hgt
    constructor
    · simp only [updateHistory]
      rw [if_pos (by rw [hlen2]; omega)]
      simp only [List.length_append, List.length_take, List.length_drop, hlen2]
      omega
    · simp only [updateHistory]
      rw [if_pos (by rw [hlen2]; omega), hlen2]

/-- Witness for C9's pruning clause at a 60-message history. -/
theorem conversation_history_bound_witness :
    60 < (List.replicate 60 (HistMsg.mk "user" "x")).length + 2 ∧
    (updateHistory (List.replicate 60 (HistMsg.mk "user" "x")) "u" "a").length = 56 := by
  refine ⟨by simp, ?_⟩
  exact (conversation_history_bound.2 (List.replicate 60 (HistMsg.mk "user" "x")) "u" "a"
    (by simp)).1

/-! ## C10: the extractor returns `None` exactly on an empty intent -/

theorem dictSet_ne_nil (d : Dict) (k : String) (v : PyVal) : dictSet d k v ≠ [] := by
  cases d with
  | nil => simp [dictSet]
  | cons kv rest =>
    unfold dictSet
    split <;> simp

theorem addField_eq_nil (d : Dict) (k : String) (o : Option PyVal) :
    addField d k o = [] ↔ d = [] ∧ o = none := by
  cases o with
  | none => simp [addField]
  | some v => simp [addField, dictSet_ne_nil]

/-- C10: the rule-based extractor returns `None` exactly when no action
and no slot was recognized; whenever it returns an intent dict, that
dict carries at least one populated field. -/
theorem extractor_none_iff_empty (action date time : Option String) (party : Option Int)
    (email ref restaurant name : Option String) :
    (extract_booking_intent action date time party email ref restaurant name = none ↔
      action = none ∧ date = none ∧ time = none ∧ party = none ∧ email = none ∧
        ref = none ∧ restaurant = none ∧ name = none) ∧
    (∀ d, extract_booking_intent action date time party email ref restaurant name = some d →
      ∃ k v, dictGet d k = some v) := by
  constructor
  · simp only [extract_booking_intent]
    constructor
    · intro h
      split at h
      · rename_i hempty
        rw [List.isEmpty_iff] at hempty
        rw [addField_eq_nil] at hempty; rw [addField_eq_nil] at hempty
        rw [addField_eq_nil] at hempty; rw [addField_eq_nil] at hempty
        rw [addField_eq_nil] at hempty; rw [addField_eq_nil] at hempty
        rw [addField_eq_nil] at hempty; rw [addField_eq_nil] at hempty
        simp only [Option.map_eq_none'] at hempty
        tauto
      · exact Option.noConfusion h
    · rintro ⟨ha, hd, ht, hp, he, hr, hrest, hn⟩
      subst ha; subst hd; subst ht; subst hp; subst he; subst hr; subst hrest; subst hn
      rfl
  · intro d h
    simp only [extract_booking_intent] at h
    split at h
    · exact Option.noConfusion h
    · rename_i hne
      rw [List.isEmpty_iff] at hne
      have hd : d ≠ [] := by
        intro hnil
        exact hne ((Option.some.inj h).trans hnil)
      cases hdc : d with
      | nil => exact absurd hdc hd
      | cons kv rest =>
        exact ⟨kv.1, kv.2, by simp [dictGet]⟩

/-- Witness for C10: an intent carrying only an action. -/
theorem extractor_none_iff_empty_witness :
    ∃ k v, dictGet [("action", PyVal.vStr "book")] k = some v :=
  (extractor_none_iff_empty (some "book") none none none none none none none).2
    [("action", PyVal.vStr "book")] rfl

/-! ## Dispatcher lemmas and sample data -/

theorem probeGetBooking_calls (env : Env) (ref : String) :
    ∀ (rs : List String) (c : RemoteCall), c ∈ (probeGetBooking env ref rs).2 →
      ∃ r, c = RemoteCall.getBooking ref r := by
  intro rs
  induction rs with
  | nil => intro c hc; simp [probeGetBooking] at hc
  | cons r rest ih =>
    intro c hc
    simp only [probeGetBooking] at hc
    cases hg : env.getBooking ref r with
    | ok rec =>
      rw [hg] at hc
      simp only [List.mem_singleton] at hc
      exact ⟨r, hc⟩
    | error e =>
      rw [hg] at hc
      rcases hrest : probeGetBooking env ref rest with ⟨res, calls⟩
      rw [hrest] at hc
      simp only [List.mem_cons] at hc
      rcases hc with hc | hc
      · exact ⟨r, hc⟩
      · exact ih c (by rw [hrest]; exact hc)

/-- A fixed sample environment for the concrete witnesses: every
availability query returns a single slot at noon marked unavailable,
bookings are created with reference `XYZ9999`, and every stored booking
is already cancelled. -/
def sampleEnv : Env where
  now := ⟨2025, 10, 12⟩
  resolveRestaurant := fun _ => none
  dbRestaurants := restaurantIds
  checkAvailability := fun _ _ _ => .ok [⟨"12:00:00", false⟩]
  createBooking := fun _ _ _ _ => .ok ⟨some "XYZ9999", some "confirmed"⟩
  getBooking := fun _ _ =>
    .ok { booking_reference := some "ABC1234", status := some "Cancelled" }
  updateBooking := fun _ _ _ => .ok ()
  cancelBooking := fun _ _ _ => .ok ()

/-- A complete `book` intent for 4 people at 7pm. -/
def bookIntentEx : Intent :=
  { action := some "book", restaurant := some "PizzaPalace",
    date := some "2025-12-24", time := some "19:00", party_size := some 4,
    name := some "Jane Doe", email := some "jane@x.com" }

/-- A `cancel_booking` intent carrying a reference. -/
def cancelIntentEx : Intent :=
  { action := some "cancel_booking", booking_reference := some "ABC1234" }

/-- A complete `book` intent whose date is the malformed `February 30th`. -/
def febBookIntentEx : Intent :=
  { action := some "book", restaurant := some "PizzaPalace",
    date := some "February 30th", time := some "7pm", party_size := some 2,
    name := some "Jane Doe", email := some "jane@x.com" }

/-! ## C3: the already-cancelled guard of `cancel_booking` -/

theorem processCancel_already_cancelled (env : Env) (intent : Intent)
    (r : String) (rec : BookingRecord)
    (href : truthyS intent.booking_reference = true)
    (hfound : (probeGetBooking env (intent.booking_reference.getD "") restaurantIds).1
      = some (r, rec))
    (hstatus : statusLowerD rec "" = "cancelled".toList) :
    processCancel env intent =
      (.alreadyCancelledCancel (intent.booking_reference.getD "") r,
        (probeGetBooking env (intent.booking_reference.getD "") restaurantIds).2) := by
  simp only [processCancel]
  rw [if_neg (not_not_intro href)]
  rcases hp : probeGetBooking env (intent.booking_reference.getD "") restaurantIds
    with ⟨found, pcalls⟩
  rw [hp] at hfound
  have hfound' : found = some (r, rec) := hfound
  subst hfound'
  simp only [hp, hstatus, if_true]

/-- C3: whenever a `cancel_booking` dispatch carries a reference that
resolves (through the ordered restaurant probe) to a booking whose
current remote status is `cancelled`, the dispatcher answers with the
explicit already-cancelled response and its remote-call trace contains
no cancel operation at all (only the lookup probes); hence a second
cancel dispatch against an already-cancelled reference performs no
remote cancel. -/
theorem cancel_already_cancelled_guard (env : Env) (intent : Intent)
    (r : String) (rec : BookingRecord)
    (hact : intent.action = some "cancel_booking")
    (href : truthyS intent.booking_reference = true)
    (hfound : (probeGetBooking env (intent.booking_reference.getD "") restaurantIds).1
      = some (r, rec))
    (hstatus : statusLowerD rec "" = "cancelled".toList) :
    process_booking_action env intent =
      (.alreadyCancelledCancel (intent.booking_reference.getD "") r,
        (probeGetBooking env (intent.booking_reference.getD "") restaurantIds).2) ∧
    ∀ c ∈ (process_booking_action env intent).2, c.isCancel = false := by
  have hdisp : process_booking_action env intent = processCancel env intent := by
    unfold process_booking_action
    rw [hact]
    rw [if_neg (by decide), if_neg (by decide), if_neg (by decide), if_neg (by decide),
      if_pos rfl]
  have hmain := processCancel_already_cancelled env intent r rec href hfound hstatus
  rw [hdisp, hmain]
  refine ⟨rfl, ?_⟩
  intro c hc
  obtain ⟨r', hr'⟩ := probeGetBooking_calls env (intent.booking_reference.getD "")
    restaurantIds c hc
  rw [hr']
  rfl

/-- Witness for C3: in `sampleEnv` the reference `ABC1234` is stored as
`Cancelled`, so the dispatcher answers already-cancelled after a single
lookup probe and never calls the remote cancel. -/
theorem cancel_already_cancelled_guard_witness :
    process_booking_action sampleEnv cancelIntentEx =
      (.alreadyCancelledCancel "ABC1234" "TheHungryUnicorn",
        [.getBooking "ABC1234" "TheHungryUnicorn"]) ∧
    ∀ c ∈ (process_booking_action sampleEnv cancelIntentEx).2, c.isCancel = false := by
  have h := cancel_already_cancelled_guard sampleEnv cancelIntentEx "TheHungryUnicorn"
    { booking_reference := some "ABC1234", status := some "Cancelled" }
    rfl (by decide) (by decide) (by decide)
  exact ⟨h.1, h.2⟩

/-! ## C2: what the `book` path actually gates on -/

/-- The requested-time matching test of the sibling implementation
(`main_clean.py` line 472): the slot's time starts with the first two
characters of the requested time. -/
def slotMatchesTime (s : Slot) (reqTime : String) : Bool :=
  startsWithL s.time.toList (reqTime.toList.take 2)

/-- C2 counterexample: with every slot unavailable and at noon, a 7pm
booking is still created — the availability re-check immediately before
`create_booking` returned no available slot matching the requested
time, yet the remote create is invoked, refuting the claim. -/
theorem book_availability_gate_counterexample :
    sampleEnv.checkAvailability ⟨2025, 12, 24⟩ 4 "PizzaPalace"
      = .ok [Slot.mk "12:00:00" false] ∧
    (∀ s ∈ [Slot.mk "12:00:00" false],
      ¬(s.available = true ∧ slotMatchesTime s "19:00" = true)) ∧
    (∃ c ∈ (process_booking_action sampleEnv bookIntentEx).2, c.isCreate = true) ∧
    (process_booking_action sampleEnv bookIntentEx).2 =
      [.checkAvailability ⟨2025, 12, 24⟩ 4 "PizzaPalace",
       .createBooking ⟨2025, 12, 24⟩ "19:00" 4 "PizzaPalace"] := by
  refine ⟨rfl, by decide, ?_, by decide⟩
  exact ⟨.createBooking ⟨2025, 12, 24⟩ "19:00" 4 "PizzaPalace", by decide, rfl⟩

/-- C2 (amended): on a fully-populated `book` intent with a valid date,
the remote create-booking call happens exactly when the availability
re-check for the same (normalized date, party size, restaurant)
performed immediately before it succeeded and returned a non-empty slot
list; the booking is refused when the re-check errors or returns no
slots at all, but neither the slots' availability flags nor the
requested time are checked against the list. -/
theorem book_availability_gate (env : Env) (intent : Intent) (nd : PyDate)
    (hact : intent.action = some "book")
    (hfields : bookFieldsComplete intent = true)
    (hnd : normalize_date_text env.now (intent.date.getD "") = some nd) :
    ((∃ c ∈ (process_booking_action env intent).2, c.isCreate = true) ↔
      (∃ slots, env.checkAvailability nd (intent.party_size.getD 0)
          ((env.resolveRestaurant (intent.restaurant.getD "")).getD (intent.restaurant.getD ""))
        = .ok slots ∧ slots ≠ [])) ∧
    (∀ slots, env.checkAvailability nd (intent.party_size.getD 0)
        ((env.resolveRestaurant (intent.restaurant.getD "")).getD (intent.restaurant.getD ""))
      = .ok slots → slots ≠ [] →
      (process_booking_action env intent).2 =
        [.checkAvailability nd (intent.party_size.getD 0)
          ((env.resolveRestaurant (intent.restaurant.getD "")).getD (intent.restaurant.getD "")),
         .createBooking nd (intent.time.getD "") (intent.party_size.getD 0)
          ((env.resolveRestaurant (intent.restaurant.getD "")).getD (intent.restaurant.getD ""))]) := by
  have hdisp : process_booking_action env intent = processBook env intent := by
    unfold process_booking_action
    rw [hact]
    rw [if_neg (by decide), if_pos rfl]
  unfold processBook at hdisp
  rw [if_neg (not_not_intro hfields), hnd] at hdisp
  simp only at hdisp
  cases hca : env.checkAvailability nd (intent.party_size.getD 0)
      ((env.resolveRestaurant (intent.restaurant.getD "")).getD (intent.restaurant.getD ""))
    with
  | error e =>
    rw [hca] at hdisp
    simp only at hdisp
    rw [hdisp]
    constructor
    · constructor
      · rintro ⟨c, hc, hcr⟩
        simp only [List.mem_singleton] at hc
        subst hc
        simp [RemoteCall.isCreate] at hcr
      · rintro ⟨slots, hok, -⟩
        exact Except.noConfusion hok
    · intro slots hok
      exact Except.noConfusion hok
  | ok slots =>
    rw [hca] at hdisp
    simp only at hdisp
    by_cases hemp : slots.isEmpty = true
    · rw [if_pos hemp] at hdisp
      rw [List.isEmpty_iff] at hemp
      rw [hdisp]
      constructor
      · constructor
        · rintro ⟨c, hc, hcr⟩
          simp only [List.mem_singleton] at hc
          subst hc
          simp [RemoteCall.isCreate] at hcr
        · rintro ⟨slots', hok, hne⟩
          cases Except.ok.inj hok
          exact absurd hemp hne
      · intro slots' hok hne
        cases Except.ok.inj hok
        exact absurd hemp hne
    · rw [if_neg hemp] at hdisp
      have hemp' : slots ≠ [] := fun hh => hemp (by rw [List.isEmpty_iff]; exact hh)
      have htrace : (process_booking_action env intent).2 =
          [.checkAvailability nd (intent.party_size.getD 0)
            ((env.resolveRestaurant (intent.restaurant.getD "")).getD (intent.restaurant.getD "")),
           .createBooking nd (intent.time.getD "") (intent.party_size.getD 0)
            ((env.resolveRestaurant (intent.restaurant.getD "")).getD (intent.restaurant.getD ""))] := by
        rw [hdisp]
        cases env.createBooking nd (intent.time.getD "") (intent.party_size.getD 0)
            ((env.resolveRestaurant (intent.restaurant.getD "")).getD (intent.restaurant.getD ""))
          with
        | error e => rfl
        | ok res =>
          split
          all_goals first
          | rfl
          | (split <;> rfl)
      constructor
      · constructor
        · intro _
          exact ⟨slots, rfl, hemp'⟩
        · intro _
          rw [htrace]
          exact ⟨.createBooking nd (intent.time.getD "") (intent.party_size.getD 0)
            ((env.resolveRestaurant (intent.restaurant.getD "")).getD (intent.restaurant.getD "")),
            by simp, rfl⟩
      · intro slots' _ _
        exact htrace

/-- Witness for C2's amended theorem at the sample environment. -/
theorem book_availability_gate_witness :
    (process_booking_action sampleEnv bookIntentEx).2 =
      [.checkAvailability ⟨2025, 12, 24⟩ 4 "PizzaPalace",
       .createBooking ⟨2025, 12, 24⟩ "19:00" 4 "PizzaPalace"] :=
  (book_availability_gate sampleEnv bookIntentEx ⟨2025, 12, 24⟩ rfl (by decide)
    (by decide)).2 [Slot.mk "12:00:00" false] rfl (by decide)

/-! ## C7: unparseable dates -/

/-- The date forms `IntentExtractor.normalize_date_text` accepts: the
disjunction of its parsers (none of which consults the current date, so
acceptance is a property of the text alone). -/
def dateFormAccepted (s : String) : Bool :=
  !s.toList.isEmpty &&
    ((parseAbsolute (lowerL (stripL s.toList))).isSome
      || lowerL (stripL s.toList) = "today".toList
      || lowerL (stripL s.toList) = "tomorrow".toList
      || (parseMonthDayNoYear (lowerL (stripL s.toList))).isSome
      || (parseMonthDayYear (lowerL (stripL s.toList))).isSome)

theorem normalize_date_isSome (now : PyDate) (s : String) :
    (normalize_date_text now s).isSome = dateFormAccepted s := by
  simp only [normalize_date_text, dateFormAccepted]
  cases hempt : s.toList.isEmpty with
  | true => simp [hempt]
  | false =>
    simp only [hempt, Bool.not_false, Bool.true_and, Bool.false_eq_true, if_false]
    generalize lowerL (stripL s.toList) = txt
    cases hab : parseAbsolute txt with
    | some d => simp [hab]
    | none =>
      simp only [hab, Option.isSome_none, Bool.false_or]
      by_cases ht : txt = ['t', 'o', 'd', 'a', 'y']
      · simp [ht]
      · by_cases htm : txt = ['t', 'o', 'm', 'o', 'r', 'r', 'o', 'w']
        · simp [ht, htm]
        · cases hmd : parseMonthDayNoYear txt with
          | some md => simp [ht, htm, hmd]
          | none => simp [ht, htm, hmd]

/-- C7: an input string that parses under none of the accepted date
forms makes `normalize_date_text` return `none` (never a default date)
— in particular the malformed `February 30th` — and a dispatcher
reacting to that `none`, whether on a fully-populated `book` intent or
on a `check_availability` intent, responds by asking for a valid date
and makes no remote booking-API call. -/
theorem unparseable_date_asks_again :
    (∀ (now : PyDate) (s : String),
      normalize_date_text now s = none ↔ dateFormAccepted s = false) ∧
    (∀ now : PyDate, normalize_date_text now "February 30th" = none) ∧
    (∀ (env : Env) (intent : Intent), intent.action = some "book" →
      bookFieldsComplete intent = true →
      normalize_date_text env.now (intent.date.getD "") = none →
      process_booking_action env intent = (.askValidDateForBooking, [])) ∧
    (∀ (env : Env) (intent : Intent), intent.action = some "check_availability" →
      truthyS intent.date = true → truthyN intent.party_size = true →
      normalize_date_text env.now (intent.date.getD "") = none →
      process_booking_action env intent = (.askValidDate, [])) := by
  have key := normalize_date_isSome
  have hiff : ∀ (now : PyDate) (s : String),
      normalize_date_text now s = none ↔ dateFormAccepted s = false := by
    intro now s
    constructor
    · intro h
      have hk := key now s
      rw [h] at hk
      exact hk.symm
    · intro h
      have hk := key now s
      rw [h] at hk
      cases ho : normalize_date_text now s with
      | none => rfl
      | some d =>
        rw [ho] at hk
        exact absurd hk (by simp)
  refine ⟨hiff, fun now => (hiff now _).mpr (by decide), ?_, ?_⟩
  · intro env intent hact hfields hdnone
    have hdisp : process_booking_action env intent = processBook env intent := by
      unfold process_booking_action
      rw [hact, if_neg (by decide), if_pos rfl]
    rw [hdisp]
    unfold processBook
    rw [if_neg (not_not_intro hfields), hdnone]
  · intro env intent hact hdate hparty hdnone
    have hdisp : process_booking_action env intent = processCheckAvailability env intent := by
      unfold process_booking_action
      rw [hact, if_pos rfl]
    rw [hdisp]
    unfold processCheckAvailability
    rw [if_neg (by simp [hdate]), if_neg (by simp [hparty]), if_neg (by simp [hdate]),
      hdnone]

/-- Witness for C7: the malformed date `February 30th` on a
fully-populated `book` intent. -/
theorem unparseable_date_asks_again_witness :
    normalize_date_text ⟨2025, 10, 12⟩ "February 30th" = none ∧
    process_booking_action sampleEnv febBookIntentEx = (.askValidDateForBooking, []) := by
  refine ⟨unparseable_date_asks_again.2.1 ⟨2025, 10, 12⟩, ?_⟩
  exact unparseable_date_asks_again.2.2.1 sampleEnv febBookIntentEx rfl (by decide) (by decide)

/-! ## Calendar lemmas for C6 -/

theorem isLeap_iff (y : Nat) :
    isLeap y = true ↔ (y % 4 = 0 ∧ (y % 100 ≠ 0 ∨ y % 400 = 0)) := by
  simp [isLeap]

theorem daysInMonth_pos (y m : Nat) : 1 ≤ daysInMonth y m := by
  unfold daysInMonth
  split_ifs <;> omega

theorem validDate_nextDay (d : PyDate) (h : validDate d) : validDate (nextDay d) := by
  obtain ⟨y, m, day⟩ := d
  obtain ⟨hy, hm1, hm2, hd1, hd2⟩ := h
  unfold nextDay
  simp only at *
  by_cases hlt : day < daysInMonth y m
  · rw [if_pos hlt]
    exact ⟨hy, hm1, hm2, (by omega : 1 ≤ day + 1), (by omega : day + 1 ≤ daysInMonth y m)⟩
  · rw [if_neg hlt]
    by_cases hm : m < 12
    · rw [if_pos hm]
      exact ⟨hy, (by omega : 1 ≤ m + 1), (by omega : m + 1 ≤ 12), le_refl 1,
        daysInMonth_pos y (m + 1)⟩
    · rw [if_neg hm]
      exact ⟨(by omega : 1 ≤ y + 1), le_refl 1, (by omega : (1 : Nat) ≤ 12), le_refl 1,
        daysInMonth_pos (y + 1) 1⟩

theorem daysBeforeMonth_succ (y m : Nat) (hm1 : 1 ≤ m) (hm : m < 12) :
    daysBeforeMonth y (m + 1) = daysBeforeMonth y m + daysInMonth y m := by
  interval_cases m <;>
    cases hle : isLeap y <;>
      simp [daysBeforeMonth, daysInMonth, hle]

set_option maxHeartbeats 1000000 in
theorem toOrdinal_nextDay (d : PyDate) (h : validDate d) :
    toOrdinal (nextDay d) = toOrdinal d + 1 := by
  obtain ⟨y, m, day⟩ := d
  obtain ⟨hy, hm1, hm2, hd1, hd2⟩ := h
  unfold nextDay
  simp only at *
  by_cases hlt : day < daysInMonth y m
  · rw [if_pos hlt]
    simp only [toOrdinal]
    omega
  · rw [if_neg hlt]
    have hde : day = daysInMonth y m := by omega
    by_cases hm : m < 12
    · rw [if_pos hm]
      simp only [toOrdinal]
      have key := daysBeforeMonth_succ y m hm1 hm
      omega
    · rw [if_neg hm]
      have hm12 : m = 12 := by omega
      subst hm12
      have hday : day = 31 := by
        rw [hde]
        simp [daysInMonth]
      subst hday
      simp only [toOrdinal]
      cases hle : isLeap y with
      | false =>
        have hl : ¬(y % 4 = 0 ∧ (y % 100 ≠ 0 ∨ y % 400 = 0)) := by
          rw [← isLeap_iff, hle]
          simp
        have hb12 : daysBeforeMonth y 12 = 334 := by
          simp [daysBeforeMonth, hle]
        have hb1 : daysBeforeMonth (y + 1) 1 = 0 := by
          simp [daysBeforeMonth]
        rw [hb12, hb1]
        omega
      | true =>
        have hl := (isLeap_iff y).mp hle
        have hb12 : daysBeforeMonth y 12 = 335 := by
          simp [daysBeforeMonth, hle]
        have hb1 : daysBeforeMonth (y + 1) 1 = 0 := by
          simp [daysBeforeMonth]
        rw [hb12, hb1]
        omega

theorem toOrdinal_addDays (d : PyDate) (h : validDate d) (k : Nat) :
    toOrdinal (addDays d k) = toOrdinal d + k ∧ validDate (addDays d k) := by
  induction k with
  | zero => exact ⟨rfl, h⟩
  | succ n ih =>
    refine ⟨?_, validDate_nextDay _ ih.2⟩
    show toOrdinal (nextDay (addDays d n)) = _
    rw [toOrdinal_nextDay _ ih.2, ih.1]
    omega

/-! ## Word-splitting lemmas for C6 -/

theorem splitWordsAux_covers (l : List Char) :
    ∀ (acc : List Char) (c : Char), (c ∈ l ∨ c ∈ acc) → c ≠ ' ' →
      ∃ w ∈ splitWordsAux l acc, c ∈ w := by
  induction l with
  | nil =>
    intro acc c hc hne
    rcases hc with hc | hc
    · exact absurd hc (List.not_mem_nil c)
    · have hacc : ¬acc.isEmpty = true := by
        rw [List.isEmpty_iff]
        exact List.ne_nil_of_mem hc
      unfold splitWordsAux
      rw [if_neg hacc]
      exact ⟨acc.reverse, List.mem_singleton_self _, List.mem_reverse.mpr hc⟩
  | cons x rest ih =>
    intro acc c hc hne
    unfold splitWordsAux
    by_cases hx : x = ' '
    · rw [if_pos hx]
      have hc' : c ∈ rest ∨ c ∈ acc := by
        rcases hc with hc | hc
        · rcases List.mem_cons.mp hc with h | h
          · exact absurd (h.trans hx) hne
          · exact Or.inl h
        · exact Or.inr hc
      by_cases hacc : acc.isEmpty = true
      · rw [if_pos hacc]
        rw [List.isEmpty_iff] at hacc
        subst hacc
        rcases hc' with h | h
        · exact ih [] c (Or.inl h) hne
        · exact absurd h (List.not_mem_nil c)
      · rw [if_neg hacc]
        rcases hc' with h | h
        · obtain ⟨w, hw, hcw⟩ := ih [] c (Or.inl h) hne
          exact ⟨w, List.mem_cons_of_mem _ hw, hcw⟩
        · exact ⟨acc.reverse, List.mem_cons_self _ _, List.mem_reverse.mpr h⟩
    · rw [if_neg hx]
      apply ih (x :: acc) c ?_ hne
      rcases hc with hc | hc
      · rcases List.mem_cons.mp hc with h | h
        · exact Or.inr (h ▸ List.mem_cons_self _ _)
        · exact Or.inl h
      · exact Or.inr (List.mem_cons_of_mem _ hc)

theorem splitWords_covers (l : List Char) (c : Char) (hc : c ∈ l) (hne : c ≠ ' ') :
    ∃ w ∈ splitWords l, c ∈ w :=
  splitWordsAux_covers l [] c (Or.inl hc) hne

theorem splitOnC_not_mem (sep : Char) (l : List Char) (h : sep ∉ l) :
    splitOnC sep l = [l] := by
  induction l with
  | nil => rfl
  | cons c cs ih =>
    have hcne : ¬c = sep := fun he => h (by rw [← he]; exact List.mem_cons_self _ _)
    unfold splitOnC
    rw [if_neg hcne, ih (fun hm => h (List.mem_cons_of_mem _ hm))]

theorem parseAbsolute_no_sep (txt : List Char) (hd : '-' ∉ txt) (hs : '/' ∉ txt) :
    parseAbsolute txt = none := by
  unfold parseAbsolute parseYMD parseDMY
  rw [splitOnC_not_mem '-' txt hd, splitOnC_not_mem '/' txt hs]
  rfl

/-- The weekday keyword table, as `List Char` constants. -/
def weekdayNamesL : List (List Char) :=
  ["monday".toList, "tuesday".toList, "wednesday".toList, "thursday".toList,
   "friday".toList, "saturday".toList, "sunday".toList]

theorem weekdayIndex_inv (w : List Char) (t : Nat) (h : weekdayIndex w = some t) :
    t < 7 ∧ w ∈ weekdayNamesL := by
  unfold weekdayIndex at h
  split_ifs at h <;> simp_all [weekdayNamesL] <;> omega

/-- Every character of `next` or of a weekday name is a lowercase
letter. -/
theorem weekday_words_chars :
    ∀ w ∈ ("next".toList :: weekdayNamesL), ∀ c ∈ w, 'a' ≤ c ∧ c ≤ 'z' := by
  decide

/-- A weekday phrase fails every branch of the normalizer that precedes
the weekday branch. -/
theorem weekday_txt_earlier_branches (txt : List Char) (b : Bool) (t : Nat)
    (h : parseWeekdayPhrase txt = some (b, t)) :
    parseAbsolute txt = none ∧ txt ≠ "today".toList ∧ txt ≠ "tomorrow".toList ∧
      parseMonthDayNoYear txt = none ∧ t < 7 := by
  have htoday : txt ≠ "today".toList := by
    rintro rfl
    rw [show parseWeekdayPhrase "today".toList = none from by decide] at h
    exact Option.noConfusion h
  have htomorrow : txt ≠ "tomorrow".toList := by
    rintro rfl
    rw [show parseWeekdayPhrase "tomorrow".toList = none from by decide] at h
    exact Option.noConfusion h
  unfold parseWeekdayPhrase at h
  cases hsw : splitWords txt with
  | nil => rw [hsw] at h; exact Option.noConfusion h
  | cons w0 ws0 =>
    rw [hsw] at h
    have hwords : ∀ w ∈ splitWords txt, w = "next".toList ∨ w ∈ weekdayNamesL := by
      cases ws0 with
      | nil =>
        simp only at h
        cases hwi : weekdayIndex w0 with
        | none => rw [hwi] at h; exact Option.noConfusion h
        | some t' =>
          intro w hw
          rw [hsw] at hw
          simp only [List.mem_singleton] at hw
          subst hw
          exact Or.inr (weekdayIndex_inv _ _ hwi).2
      | cons w1 ws1 =>
        cases ws1 with
        | nil =>
          simp only at h
          by_cases hn : w0 = "next".toList
          · rw [if_pos hn] at h
            cases hwi : weekdayIndex w1 with
            | none => rw [hwi] at h; exact Option.noConfusion h
            | some t' =>
              intro w hw
              rw [hsw] at hw
              simp only [List.mem_cons, List.mem_singleton] at hw
              rcases hw with hw | hw | hw
              · subst hw; exact Or.inl hn
              · subst hw; exact Or.inr (weekdayIndex_inv _ _ hwi).2
              · exact absurd hw (List.not_mem_nil w)
          · rw [if_neg hn] at h
            exact Option.noConfusion h
        | cons w2 ws2 =>
          simp only at h
          exact Option.noConfusion h
    have hchars : ∀ c ∈ txt, c = ' ' ∨ ('a' ≤ c ∧ c ≤ 'z') := by
      intro c hcmem
      by_cases hcs : c = ' '
      · exact Or.inl hcs
      · obtain ⟨w, hw, hcw⟩ := splitWords_covers txt c hcmem hcs
        rcases hwords w hw with hn | hwd
        · exact Or.inr (weekday_words_chars "next".toList (List.mem_cons_self _ _) c
            (hn ▸ hcw))
        · exact Or.inr (weekday_words_chars w (List.mem_cons_of_mem _ hwd) c hcw)
    have hdash : '-' ∉ txt := by
      intro hm
      rcases hchars '-' hm with hh | hh
      · exact absurd hh (by decide)
      · exact absurd hh.1 (by decide)
    have hslash : '/' ∉ txt := by
      intro hm
      rcases hchars '/' hm with hh | hh
      · exact absurd hh (by decide)
      · exact absurd hh.1 (by decide)
    have hmd : parseMonthDayNoYear txt = none := by
      unfold parseMonthDayNoYear
      rw [hsw]
      cases ws0 with
      | nil => rfl
      | cons w1 ws1 =>
        cases ws1 with
        | nil =>
          have hw0 : w0 = "next".toList := by
            simp only at h
            by_cases hn : w0 = "next".toList
            · exact hn
            · rw [if_neg hn] at h; exact Option.noConfusion h
          subst hw0
          simp [show monthIndex ['n', 'e', 'x', 't'] = none from by decide]
        | cons w2 ws2 => rfl
    have ht7 : t < 7 := by
      cases ws0 with
      | nil =>
        simp only at h
        cases hwi : weekdayIndex w0 with
        | none => rw [hwi] at h; exact Option.noConfusion h
        | some t' =>
          rw [hwi] at h
          simp only [Option.map_some'] at h
          have : t' = t := by
            have := Option.some.inj h
            exact congrArg Prod.snd this
          exact this ▸ (weekdayIndex_inv _ _ hwi).1
      | cons w1 ws1 =>
        cases ws1 with
        | nil =>
          simp only at h
          by_cases hn : w0 = "next".toList
          · rw [if_pos hn] at h
            cases hwi : weekdayIndex w1 with
            | none => rw [hwi] at h; exact Option.noConfusion h
            | some t' =>
              rw [hwi] at h
              simp only [Option.map_some'] at h
              have : t' = t := by
                have := Option.some.inj h
                exact congrArg Prod.snd this
              exact this ▸ (weekdayIndex_inv _ _ hwi).1
          · rw [if_neg hn] at h
            exact Option.noConfusion h
        | cons w2 ws2 =>
          simp only at h
          exact Option.noConfusion h
    exact ⟨parseAbsolute_no_sep txt hdash hslash, htoday, htomorrow, hmd, ht7⟩

theorem weekdayDelta_pos (b : Bool) (t w : Nat) : 1 ≤ weekdayDelta b t w := by
  unfold weekdayDelta
  split_ifs <;> omega

theorem weekdayDelta_le_seven (t w : Nat) : weekdayDelta false t w ≤ 7 := by
  simp only [weekdayDelta]
  split_ifs <;> first | contradiction | omega

theorem weekdayDelta_next_week (t w : Nat) :
    weekdayDelta true t w = weekdayDelta false t w + 7 := by
  simp only [weekdayDelta]
  split_ifs <;> first | contradiction | omega

theorem weekdayDelta_minimal (o t j : Nat) (ht : t < 7) (hj1 : 1 ≤ j)
    (hj2 : j < weekdayDelta false t ((o + 6) % 7)) :
    (o + j + 6) % 7 ≠ t := by
  simp only [weekdayDelta] at hj2
  rw [Nat.mod_mod_of_dvd _ dvd_rfl] at hj2
  split_ifs at hj2 <;> first | contradiction | omega

/-- C6: the `main_clean.py` date normalizer accepts weekday names with
an optional `next` prefix: on every weekday-phrase input it returns
`today + delta` where the offset `delta` is at least 1 (never today
itself), lands exactly on the requested weekday, is at most 7 — and no
earlier day strictly after today hits that weekday, so it is the next
occurrence — and prefixing `next` adds exactly one additional week to
the offset. -/
theorem weekday_normalization (now : PyDate) (hvalid : validDate now)
    (date_text : String) (isNext : Bool) (target : Nat)
    (hp : parseWeekdayPhrase (lowerL (stripL date_text.toList)) = some (isNext, target)) :
    normalize_date_text_clean now date_text
      = some (addDays now (weekdayDelta isNext target (pyWeekday now))) ∧
    toOrdinal (addDays now (weekdayDelta isNext target (pyWeekday now)))
      = toOrdinal now + weekdayDelta isNext target (pyWeekday now) ∧
    1 ≤ weekdayDelta isNext target (pyWeekday now) ∧
    pyWeekday (addDays now (weekdayDelta isNext target (pyWeekday now))) = target ∧
    (isNext = false →
      weekdayDelta false target (pyWeekday now) ≤ 7 ∧
      ∀ j, 1 ≤ j → j < weekdayDelta false target (pyWeekday now) →
        pyWeekday (addDays now j) ≠ target) ∧
    weekdayDelta true target (pyWeekday now)
      = weekdayDelta false target (pyWeekday now) + 7 := by
  obtain ⟨habs, ht, htm, hmd, ht7⟩ := weekday_txt_earlier_branches _ _ _ hp
  have hne : ¬date_text.toList.isEmpty = true := by
    intro he
    rw [List.isEmpty_iff] at he
    rw [he] at hp
    exact Option.noConfusion hp
  have hord := toOrdinal_addDays now hvalid (weekdayDelta isNext target (pyWeekday now))
  have harr : ∀ (o t : Nat), t < 7 → ∀ b : Bool,
      (o + weekdayDelta b t ((o + 6) % 7) + 6) % 7 = t := by
    intro o t htl b
    unfold weekdayDelta
    split_ifs <;> omega
  refine ⟨?_, hord.1, ?_, ?_, ?_, ?_⟩
  · simp only [normalize_date_text_clean]
    rw [if_neg hne]
    simp only [habs]
    rw [if_neg ht, if_neg htm]
    simp only [hmd, hp]
  · exact weekdayDelta_pos isNext target (pyWeekday now)
  · show (toOrdinal (addDays now (weekdayDelta isNext target (pyWeekday now))) + 6) % 7
      = target
    rw [hord.1]
    exact harr (toOrdinal now) target ht7 isNext
  · intro hnx
    refine ⟨weekdayDelta_le_seven target (pyWeekday now), ?_⟩
    intro j hj1 hj2 heq
    have hordj := toOrdinal_addDays now hvalid j
    have heq' : (toOrdinal now + j + 6) % 7 = target := by
      rw [show pyWeekday (addDays now j) = (toOrdinal (addDays now j) + 6) % 7 from rfl,
        hordj.1] at heq
      exact heq
    exact weekdayDelta_minimal (toOrdinal now) target j ht7 hj1 hj2 heq'
  · exact weekdayDelta_next_week target (pyWeekday now)

/-- Witness for C6: from Sunday 2025-10-12, `next Friday` resolves to
2025-10-24 — twelve days ahead, one week past the coming Friday. -/
theorem weekday_normalization_witness :
    normalize_date_text_clean ⟨2025, 10, 12⟩ "next Friday"
      = some (addDays ⟨2025, 10, 12⟩ (weekdayDelta true 4 (pyWeekday ⟨2025, 10, 12⟩))) ∧
    addDays ⟨2025, 10, 12⟩ (weekdayDelta true 4 (pyWeekday ⟨2025, 10, 12⟩))
      = ⟨2025, 10, 24⟩ := by
  have h := weekday_normalization ⟨2025, 10, 12⟩ (by decide) "next Friday" true 4 (by decide)
  exact ⟨h.1, by decide⟩

end Booking
